import Mathlib

/-!
Verification of the agent-chat event bus, connection handler and permission
watcher, as a shallow embedding of the Go sources (`eventbus.go`, `main.go`,
`watcher.go`, `permission.go`).

Modelling conventions:
  * Go `int64` fields are modelled as `Int` (no arithmetic here ever comes
    close to overflow, and the Go code does no wrapping arithmetic).
  * Go `nil` slices and empty slices are both modelled as `[]`.
  * Go channels are modelled by their buffered contents: the user-message
    queue (capacity 256) is a `List UserMessage`, a subscriber mailbox
    (capacity 64) is a `List Event`, an ack channel (capacity 1) is an
    `Option String`.
  * Go maps with string keys are modelled as association lists whose keys
    are unique in every reachable state (`CreateAck` keys are fresh UUIDs,
    the watcher keys are tool-use ids); `delete` is modelled by filtering
    the key out, which agrees with map deletion on unique-key lists.
  * Wall-clock timestamps are passed in explicitly (`now`).
  * The opaque draw-instruction payload (`[]any` in Go) is carried as an
    uninterpreted list of strings; the bus never looks inside it.
-/

/-- `FileRef` from eventbus.go: describes an uploaded file. -/
structure FileRef where
  name : String
  path : String
  url : String
  size : Int
  type : String
deriving DecidableEq, Repr

/-- `UserMessage` from eventbus.go: text plus optional attachments. -/
structure UserMessage where
  text : String
  files : List FileRef
deriving DecidableEq, Repr

/-- `Event` from eventbus.go (with the permission fields used by watcher.go):
a chat event sent to browser clients. -/
structure Event where
  type : String
  seq : Int
  text : String
  ackId : String
  quickReplies : List String
  instructions : List String
  files : List FileRef
  timestamp : Int
  toolUseId : String
  toolName : String
  detail : String
deriving DecidableEq, Repr

/-- The zero value of the Go `Event` struct (all fields at their defaults),
used when the Go code builds an event literal that omits some fields. -/
def emptyEvent : Event :=
  { type := "", seq := 0, text := "", ackId := "", quickReplies := []
  , instructions := [], files := [], timestamp := 0
  , toolUseId := "", toolName := "", detail := "" }

/-- `EventBus` state from eventbus.go.  `chans` holds the buffers of all ack
channels ever created; `pending` maps an ack id to the index of its channel
in `chans` (mirroring the Go map from id to channel).  `diskFile` is the
parsed contents of the JSONL mirror file (`none` = a malformed line);
`hasLogFile` mirrors `logFile != nil`. -/
structure EventBus where
  subscribers : List (List Event)
  eventLog : List Event
  nextSeq : Int
  lastQuickReplies : List String
  pending : List (String × Nat)
  chans : List (Option String)
  msgQueue : List UserMessage
  lastVoice : Bool
  hasLogFile : Bool
  diskFile : List (Option Event)
deriving DecidableEq, Repr

/-- `NewEventBus` from eventbus.go: a fresh bus, no JSONL mirror. -/
def NewEventBus : EventBus :=
  { subscribers := [], eventLog := [], nextSeq := 0, lastQuickReplies := []
  , pending := [], chans := [], msgQueue := [], lastVoice := false
  , hasLogFile := false, diskFile := [] }

/-- The loop body of `loadEventLog` from eventbus.go: one parsed line of the
JSONL file, skipping malformed lines (`none`), accumulating the event list,
the maximum sequence seen, and the reconstructed `lastQuickReplies` (set by
any event with non-empty quick replies, cleared by a `userMessage`
event). -/
def loadEventLogStep (acc : List Event × Int × List String) (oline : Option Event) :
    List Event × Int × List String :=
  match oline with
  | none => acc
  | some ev =>
    let events := acc.1 ++ [ev]
    let maxSeq := if ev.seq > acc.2.1 then ev.seq else acc.2.1
    let lastQR := if ev.quickReplies ≠ [] then ev.quickReplies else acc.2.2
    let lastQR := if ev.type = "userMessage" then [] else lastQR
    (events, maxSeq, lastQR)

/-- The whole-file fold of `loadEventLog`. -/
def loadEventLog (lines : List (Option Event)) : List Event × Int × List String :=
  lines.foldl loadEventLogStep ([], 0, [])

/-- `NewEventBusWithLog` from eventbus.go: reload the JSONL mirror; the bus
starts with the reloaded event log, sequence counter and quick-reply state,
and keeps appending to the same file (opened with O_APPEND). -/
def NewEventBusWithLog (lines : List (Option Event)) : EventBus :=
  let r := loadEventLog lines
  { subscribers := [], eventLog := r.1, nextSeq := r.2.1
  , lastQuickReplies := r.2.2, pending := [], chans := [], msgQueue := []
  , lastVoice := false, hasLogFile := true, diskFile := lines }

/-- `writeToLog` from eventbus.go: append the JSON-serialised event to the
mirror file when one is configured (a written line parses back to the same
event). -/
def writeToLog (eb : EventBus) (event : Event) : EventBus :=
  if eb.hasLogFile then { eb with diskFile := eb.diskFile ++ [some event] }
  else eb

/-- `Publish` from eventbus.go: default the timestamp, assign the next
sequence number, append to the event log, update `lastQuickReplies`
(non-empty quick replies set it, a `userMessage` event then clears it),
fan out non-blockingly to every subscriber mailbox (capacity 64, drop on
overflow for that subscriber only), and mirror to the JSONL file. -/
def Publish (eb : EventBus) (now : Int) (event : Event) : EventBus :=
  let event := if event.timestamp = 0 then { event with timestamp := now } else event
  let nextSeq := eb.nextSeq + 1
  let event := { event with seq := nextSeq }
  let eventLog := eb.eventLog ++ [event]
  let lastQR := if event.quickReplies ≠ [] then event.quickReplies else eb.lastQuickReplies
  let lastQR := if event.type = "userMessage" then [] else lastQR
  let subscribers :=
    eb.subscribers.map (fun mbox => if mbox.length < 64 then mbox ++ [event] else mbox)
  writeToLog
    { eb with nextSeq := nextSeq, eventLog := eventLog
            , lastQuickReplies := lastQR, subscribers := subscribers }
    event

/-- `LogUserMessage` from eventbus.go: append a `userMessage` event (sequence
stays at the zero value 0, it is never broadcast) to the in-memory log and
the JSONL mirror, for reconnect replay.  It does not touch
`lastQuickReplies`. -/
def LogUserMessage (eb : EventBus) (now : Int) (text : String) (files : List FileRef) :
    EventBus :=
  let evt := { emptyEvent with
                 type := "userMessage", text := text, files := files,
                 timestamp := now }
  writeToLog { eb with eventLog := eb.eventLog ++ [evt] } evt

/-- The loop body of `EventsSince` from eventbus.go: the Go loop finds the
first index whose event has `Seq > cursor` and returns the log's suffix from
that index (the whole log if the first event already qualifies, the empty
list if no event qualifies).  This recursion drops leading events with
`seq ≤ cursor` and returns the remaining suffix unchanged, which is exactly
that loop. -/
def eventsSinceList : List Event → Int → List Event
  | [], _ => []
  | e :: rest, cursor => if e.seq > cursor then e :: rest else eventsSinceList rest cursor

/-- `EventsSince` from eventbus.go. -/
def EventsSince (eb : EventBus) (cursor : Int) : List Event :=
  eventsSinceList eb.eventLog cursor

/-- `PushMessage` from eventbus.go: non-blocking send into the 256-slot
queue; when the queue is full, receive (drop) the oldest entry first, then
enqueue the new one.  The producer never blocks. -/
def PushMessage (eb : EventBus) (text : String) (files : List FileRef) : EventBus :=
  let msg : UserMessage := { text := text, files := files }
  let q :=
    if eb.msgQueue.length < 256 then eb.msgQueue ++ [msg]
    else eb.msgQueue.drop 1 ++ [msg]
  { eb with msgQueue := q }

/-- The receive loop of `DrainMessages` from eventbus.go: keep receiving
from the queue until it is empty, collecting the messages in arrival
order. -/
def drainLoop : List UserMessage → List UserMessage
  | [] => []
  | m :: rest => m :: drainLoop rest

/-- `DrainMessages` from eventbus.go: returns all currently queued messages
in arrival order and leaves the queue empty. -/
def DrainMessages (eb : EventBus) : List UserMessage × EventBus :=
  (drainLoop eb.msgQueue, { eb with msgQueue := [] })

/-- `Subscribe` from eventbus.go: register a fresh empty mailbox. -/
def Subscribe (eb : EventBus) : EventBus :=
  { eb with subscribers := eb.subscribers ++ [[]] }

/-- `CreateAck` from eventbus.go: allocate a fresh single-slot channel and
register it under the given (freshly generated UUID) id. -/
def CreateAck (eb : EventBus) (id : String) : EventBus :=
  { eb with pending := eb.pending ++ [(id, eb.chans.length)]
          , chans := eb.chans ++ [none] }

/-- `ResolveAck` from eventbus.go: look the id up in the pending map; if
absent return `false` and change nothing.  Otherwise remove the entry,
deliver `result` into the entry's single-slot channel with a non-blocking
send (dropped if the slot is already full), and return `true`. -/
def ResolveAck (eb : EventBus) (id result : String) : EventBus × Bool :=
  match eb.pending.lookup id with
  | none => (eb, false)
  | some ci =>
    let pending := eb.pending.filter (fun kv => kv.1 ≠ id)
    let chans :=
      match eb.chans.get? ci with
      | some none => eb.chans.set ci (some result)
      | _ => eb.chans
    ({ eb with pending := pending, chans := chans }, true)

/-- `PendingAckID` from eventbus.go: some pending ack id, or `""` when the
registry is empty (Go iterates the map and returns the first key; the model
returns the first list entry). -/
def PendingAckID (eb : EventBus) : String :=
  match eb.pending with
  | [] => ""
  | (id, _) :: _ => id

/-- `LastQuickReplies` from eventbus.go. -/
def LastQuickReplies (eb : EventBus) : List String :=
  eb.lastQuickReplies

/-- The `connected` handshake frame schema of the wire protocol
(`{"type":"connected","version"?,"pendingAckId"?,"quickReplies"?}`); absent
optional fields are `none`. -/
structure ConnectedMsg where
  type : String
  version : Option String
  pendingAckId : Option String
  quickReplies : Option (List String)
deriving DecidableEq, Repr

/-- The handshake built by `handleWebSocket` in main.go: the Go code builds
`map[string]any{"type": "connected"}` and adds `pendingAckId` only when
`bus.PendingAckID()` is non-empty; it sets no `version` and no
`quickReplies` key. -/
def connectHandshake (eb : EventBus) : ConnectedMsg :=
  let pendingAckID := PendingAckID eb
  { type := "connected"
  , version := none
  , pendingAckId := if pendingAckID ≠ "" then some pendingAckID else none
  , quickReplies := none }

/-- The event-delivery pipeline of one WebSocket connection in
`handleWebSocket` (main.go): after the handshake the connection streams
`EventsSince cursor` over the snapshot of the log, remembers
`highSeq = cursor`, or the sequence of the last replayed event if any, and
the forwarding goroutine then relays every event received on the
subscription channel whose sequence is `> highSeq`, skipping the rest.
`log` is the event log at the `EventsSince` call, `live` the events the
subscription channel delivers. -/
def connectionDeliver (log : List Event) (cursor : Int) (live : List Event) :
    List Event :=
  let missed := eventsSinceList log cursor
  let highSeq := (missed.getLast?.map Event.seq).getD cursor
  missed ++ live.filter (fun e => e.seq > highSeq)

/-- The `"message"` inbound-frame case of `handleWebSocket` (main.go): when
the text or the file list is non-empty, push the message onto the bus
queue, publish a `userMessage` event to all tabs, and queue a
`messageQueued` notice to the sender (the returned flag); otherwise do
nothing at all. -/
def handleMessageFrame (eb : EventBus) (now : Int) (text : String)
    (files : List FileRef) : EventBus × Bool :=
  if text ≠ "" ∨ files ≠ [] then
    let eb := PushMessage eb text files
    let eb := Publish eb now { emptyEvent with
                                 type := "userMessage", text := text, files := files }
    (eb, true)
  else (eb, false)

/-- `PermissionPrompt` from permission.go. -/
structure PermissionPrompt where
  toolUseId : String
  toolName : String
  title : String
  detail : String
deriving DecidableEq, Repr

/-- The mutable state of `Watcher` (watcher.go): the `pending` map from
tool-use id to its registered prompt.  The 1500 ms debounce timer attached
to each entry is modelled by the explicit `watcherTimerFire` action below;
`timer.Stop` is modelled by the fact that a stopped timer's fire action
never occurs. -/
structure WatcherState where
  pending : List (String × PermissionPrompt)
deriving DecidableEq, Repr

/-- Go map assignment `m[k] = v`: replace the existing entry or append a
new one. -/
def mapSet (m : List (String × PermissionPrompt)) (k : String)
    (v : PermissionPrompt) : List (String × PermissionPrompt) :=
  if m.lookup k = none then m ++ [(k, v)]
  else m.map (fun kv => if kv.1 = k then (k, v) else kv)

/-- The `permissionResolved` event published by `processLine`
(watcher.go). -/
def permissionResolvedEvent (id : String) : Event :=
  { emptyEvent with type := "permissionResolved", toolUseId := id }

/-- The `permissionPrompt` event published by the debounce timer callback
(watcher.go). -/
def permissionPromptEvent (p : PermissionPrompt) : Event :=
  { emptyEvent with
      type := "permissionPrompt", toolUseId := p.toolUseId,
      toolName := p.toolName, text := p.title, detail := p.detail }

/-- `processLine` (watcher.go) after `ParseJSONLLine`: first every resolved
tool-use id that is still pending has its timer stopped, its entry removed
and a `permissionResolved` event published; then every new prompt is
registered (with a fresh debounce timer).  Returns the new state and the
events published, in order. -/
def processLine (s : WatcherState) (prompts : List PermissionPrompt)
    (resolvedIDs : List String) : WatcherState × List Event :=
  let step1 :=
    resolvedIDs.foldl
      (fun (acc : WatcherState × List Event) id =>
        match acc.1.pending.lookup id with
        | some _ =>
          (⟨acc.1.pending.filter (fun kv => kv.1 ≠ id)⟩,
           acc.2 ++ [permissionResolvedEvent id])
        | none => acc)
      (s, [])
  let s2 : WatcherState :=
    prompts.foldl (fun st p => ⟨mapSet st.pending p.toolUseId p⟩) step1.1
  (s2, step1.2)

/-- The debounce timer callback registered by `processLine` (watcher.go):
when the 1500 ms timer for the captured prompt fires, publish a
`permissionPrompt` event if the prompt's id is still pending, and leave the
entry registered either way. -/
def watcherTimerFire (s : WatcherState) (p : PermissionPrompt) :
    WatcherState × List Event :=
  match s.pending.lookup p.toolUseId with
  | some _ => (s, [permissionPromptEvent p])
  | none => (s, [])

/-- Result of `WaitForSubscriber` (eventbus.go). -/
inductive WaitResult where
  | ok
  | cancelled
  | timedOut
deriving DecidableEq, Repr

/-- One-poll-per-iteration model of the `WaitForSubscriber` loop
(eventbus.go), with wall-clock time in milliseconds made explicit.  Each
iteration at time `t` reads the subscriber count (`present t`), and
otherwise selects among three channels armed *in this iteration*: the
caller's cancellation (ready once `now ≥` the cancellation time), a fresh
30-second timer (ready at `t + 30000`) and a fresh 100 ms poll timer
(ready at `t + 100`).  The select takes whichever is ready first, so the
30-second branch is taken only if `t + 30000 ≤ t + 100`.  `fuel` bounds the
number of iterations; `none` means the loop was still polling when the fuel
ran out.  `cancelReady cancelAt d` says the cancellation channel is ready
by wall-clock time `d`. -/
def cancelReady (cancelAt : Option ℕ) (deadline : ℕ) : Bool :=
  match cancelAt with
  | some ca => ca ≤ deadline
  | none => false

/-- The `WaitForSubscriber` loop itself; see the comment on `cancelReady`
for the timing model. -/
def waitForSubscriberLoop : (fuel : ℕ) → (t : ℕ) → (present : ℕ → Bool) →
    (cancelAt : Option ℕ) → Option WaitResult
  | 0, _, _, _ => none
  | fuel + 1, t, present, cancelAt =>
    if present t then some .ok
    else if cancelReady cancelAt (min (t + 30000) (t + 100)) then some .cancelled
    else if t + 30000 ≤ t + 100 then some .timedOut
    else waitForSubscriberLoop fuel (t + 100) present cancelAt

/-- Boolean check that the events of `l` carry the consecutive sequence
numbers `k+1, k+2, …` (the shape `Publish` produces, cf. C2). -/
def seqFromB : ℕ → List Event → Bool
  | _, [] => true
  | k, e :: tl => (e.seq = (k : ℤ) + 1) && seqFromB (k + 1) tl

/-- The events of `l` carry the consecutive sequence numbers `k+1, k+2, …`. -/
def SeqFrom (k : ℕ) (l : List Event) : Prop := seqFromB k l = true

instance (k : ℕ) (l : List Event) : Decidable (SeqFrom k l) :=
  decidable_of_iff (seqFromB k l = true) Iff.rfl

theorem seqFrom_nil (k : ℕ) : SeqFrom k [] := rfl

theorem seqFrom_cons {k : ℕ} {e : Event} {tl : List Event} :
    SeqFrom k (e :: tl) ↔ e.seq = (k : ℤ) + 1 ∧ SeqFrom (k + 1) tl := by
  simp [SeqFrom, seqFromB]

theorem seqFrom_take {l : List Event} {k : ℕ} (n : ℕ) (h : SeqFrom k l) :
    SeqFrom k (l.take n) := by
  induction l generalizing k n with
  | nil => simpa [List.take_nil] using seqFrom_nil k
  | cons e tl ih =>
    cases n with
    | zero => exact seqFrom_nil k
    | succ n =>
      rw [seqFrom_cons] at h
      rw [List.take_succ_cons, seqFrom_cons]
      exact ⟨h.1, ih n h.2⟩

theorem seqFrom_drop {l : List Event} {k : ℕ} (n : ℕ) (h : SeqFrom k l) :
    SeqFrom (k + n) (l.drop n) := by
  induction l generalizing k n with
  | nil => simpa [List.drop_nil] using seqFrom_nil (k + n)
  | cons e tl ih =>
    cases n with
    | zero => simpa using h
    | succ n =>
      rw [seqFrom_cons] at h
      rw [List.drop_succ_cons]
      have := ih n h.2
      have hk : k + 1 + n = k + (n + 1) := by omega
      rwa [hk] at this

theorem eventsSinceList_seqFrom {l : List Event} {k : ℕ} (c : ℕ)
    (h : SeqFrom k l) (hc : c ≤ k + l.length) :
    eventsSinceList l (c : ℤ) = l.drop (c - k) := by
  induction l generalizing k c with
  | nil => simp [eventsSinceList]
  | cons e tl ih =>
    rw [seqFrom_cons] at h
    obtain ⟨h1, h2⟩ := h
    by_cases hck : c ≤ k
    · have hgt : e.seq > (c : ℤ) := by rw [h1]; omega
      rw [eventsSinceList, if_pos hgt, Nat.sub_eq_zero_of_le hck, List.drop_zero]
    · have hle : ¬ e.seq > (c : ℤ) := by rw [h1]; omega
      rw [eventsSinceList, if_neg hle]
      have hc' : c ≤ (k + 1) + tl.length := by
        simp only [List.length_cons] at hc; omega
      have := ih c h2 hc'
      have hsub : c - k = (c - (k + 1)) + 1 := by omega
      rw [hsub, List.drop_succ_cons]
      exact this

theorem filter_seq_gt_seqFrom {l : List Event} {k : ℕ} (n : ℕ)
    (h : SeqFrom k l) (hn : n ≤ k + l.length) :
    l.filter (fun e => e.seq > (n : ℤ)) = l.drop (n - k) := by
  induction l generalizing k n with
  | nil => simp
  | cons e tl ih =>
    rw [seqFrom_cons] at h
    obtain ⟨h1, h2⟩ := h
    by_cases hck : n ≤ k
    · have hgt : e.seq > (n : ℤ) := by rw [h1]; omega
      have htl : tl.filter (fun e => e.seq > (n : ℤ)) = tl := by
        have h3 := ih (k := k + 1) n h2 (by omega)
        rwa [Nat.sub_eq_zero_of_le (by omega), List.drop_zero] at h3
      rw [List.filter_cons, if_pos (by simpa using hgt), htl,
          Nat.sub_eq_zero_of_le hck, List.drop_zero]
    · have hle : ¬ e.seq > (n : ℤ) := by rw [h1]; omega
      have hn' : n ≤ (k + 1) + tl.length := by
        simp only [List.length_cons] at hn; omega
      have h3 := ih n h2 hn'
      have hsub : n - k = (n - (k + 1)) + 1 := by omega
      rw [List.filter_cons, if_neg (by simpa using hle), hsub, List.drop_succ_cons]
      exact h3

theorem getLast?_seq_seqFrom {l : List Event} {k : ℕ} (h : SeqFrom k l)
    {e : Event} (he : l.getLast? = some e) : e.seq = (k : ℤ) + l.length := by
  induction l generalizing k with
  | nil => simp at he
  | cons a tl ih =>
    rw [seqFrom_cons] at h
    cases tl with
    | nil =>
      simp only [List.getLast?_singleton, Option.some.injEq] at he
      subst he
      simpa using h.1
    | cons b tl' =>
      rw [List.getLast?_cons_cons] at he
      have h3 := ih h.2 he
      rw [h3]
      simp only [List.length_cons]
      push_cast
      ring

theorem countP_seq_eq_seqFrom {l : List Event} {k : ℕ} (h : SeqFrom k l) (v : ℤ) :
    l.countP (fun e => e.seq = v) =
      if (k : ℤ) < v ∧ v ≤ (k : ℤ) + l.length then 1 else 0 := by
  induction l generalizing k with
  | nil =>
    simp only [List.countP_nil, List.length_nil]
    rw [if_neg]
    omega
  | cons e tl ih =>
    rw [seqFrom_cons] at h
    obtain ⟨h1, h2⟩ := h
    rw [List.countP_cons, ih h2]
    simp only [decide_eq_true_eq, h1, List.length_cons]
    push_cast
    split_ifs <;> omega

/-- Core replay/dedup fact behind C1: for a stream `es` of published events
(sequences `1, 2, …` in publish order), a connection whose `EventsSince`
snapshot was the first `N` events, whose subscription started at event `s`
(`s ≤ N`, subscribe happens before the snapshot is read) and whose client
supplied cursor `c ≤ N` delivers exactly the suffix of the stream after
`c`. -/
theorem connectionDeliver_stream {es : List Event} {N s c : ℕ}
    (h : SeqFrom 0 es) (hc : c ≤ N) (hs : s ≤ N) (hN : N ≤ es.length) :
    connectionDeliver (es.take N) (c : ℤ) (es.drop s) = es.drop c := by
  have htake : SeqFrom 0 (es.take N) := seqFrom_take N h
  have hlen_take : (es.take N).length = N := by
    rw [List.length_take]; omega
  have hmissed : eventsSinceList (es.take N) (c : ℤ) = (es.take N).drop c := by
    have h3 := eventsSinceList_seqFrom (l := es.take N) (k := 0) c htake (by omega)
    simpa using h3
  have hlast : ((((es.take N).drop c).getLast?.map Event.seq).getD (c : ℤ)) = (N : ℤ) := by
    rcases Nat.lt_or_ge c N with hlt | hge
    · have hne : (es.take N).drop c ≠ [] := by
        intro hnil
        have h4 := congrArg List.length hnil
        rw [List.length_drop, hlen_take] at h4
        simp at h4
        omega
      obtain ⟨e, he⟩ := Option.isSome_iff_exists.mp (List.getLast?_isSome.mpr hne)
      have hsf : SeqFrom c ((es.take N).drop c) := by
        have h5 := seqFrom_drop (l := es.take N) (k := 0) c htake
        simpa using h5
      have hseq := getLast?_seq_seqFrom hsf he
      rw [he]
      simp only [Option.map_some', Option.getD_some]
      rw [hseq, List.length_drop, hlen_take]
      omega
    · have hcN : c = N := le_antisymm hc hge
      subst hcN
      have hnil : (es.take c).drop c = [] :=
        List.drop_eq_nil_of_le (le_of_eq hlen_take)
      rw [hnil]
      simp
  have hlive : (es.drop s).filter (fun e => e.seq > (N : ℤ)) = es.drop N := by
    have hsf : SeqFrom s (es.drop s) := by simpa using seqFrom_drop s h
    have h3 := filter_seq_gt_seqFrom (l := es.drop s) (k := s) N hsf
      (by rw [List.length_drop]; omega)
    rw [h3, List.drop_drop]
    congr 1
    omega
  have hconcat : (es.take N).drop c ++ es.drop N = es.drop c := by
    have h1 : (es.take N).drop c = (es.drop c).take (N - c) := List.drop_take N c es
    have h2 : es.drop N = (es.drop c).drop (N - c) := by
      rw [List.drop_drop]
      congr 1
      omega
    rw [h1, h2, List.take_append_drop]
  simp only [connectionDeliver]
  rw [hmissed, hlast, hlive, hconcat]

/-- A sequence of `Publish` calls in order (all at wall-clock time `now`;
the timestamp plays no role in sequence assignment). -/
def publishAll (eb : EventBus) (now : Int) : List Event → EventBus
  | [] => eb
  | e :: rest => publishAll (Publish eb now e) now rest

theorem Publish_nextSeq (eb : EventBus) (now : Int) (event : Event) :
    (Publish eb now event).nextSeq = eb.nextSeq + 1 := by
  simp only [Publish, writeToLog]
  split <;> rfl

theorem Publish_eventLog_seq (eb : EventBus) (now : Int) (event : Event) :
    (Publish eb now event).eventLog.map Event.seq =
      eb.eventLog.map Event.seq ++ [eb.nextSeq + 1] := by
  simp only [Publish, writeToLog]
  split <;> simp

theorem publishAll_seq (eb : EventBus) (now : Int) (evts : List Event) :
    (publishAll eb now evts).nextSeq = eb.nextSeq + evts.length ∧
    (publishAll eb now evts).eventLog.map Event.seq =
      eb.eventLog.map Event.seq ++
        (List.range evts.length).map (fun i : ℕ => eb.nextSeq + 1 + (i : ℤ)) := by
  induction evts generalizing eb with
  | nil => simp [publishAll]
  | cons e rest ih =>
    obtain ⟨ih1, ih2⟩ := ih (Publish eb now e)
    rw [Publish_nextSeq] at ih1 ih2
    constructor
    · rw [publishAll, ih1, List.length_cons]
      push_cast
      ring
    · rw [publishAll, ih2, Publish_eventLog_seq, List.append_assoc]
      congr 1
      rw [List.length_cons, List.range_succ_eq_map, List.map_cons, List.map_map,
          List.singleton_append]
      congr 1
      · simp
      · apply List.map_congr_left
        intro i _
        simp only [Function.comp_apply, Nat.succ_eq_add_one]
        push_cast
        ring

theorem loadEventLog_fold_maxSeq (lines : List (Option Event))
    (acc : List Event × Int × List String) :
    (lines.foldl loadEventLogStep acc).2.1 =
      ((lines.filterMap id).map Event.seq).foldl max acc.2.1 := by
  induction lines generalizing acc with
  | nil => simp
  | cons o rest ih =>
    cases o with
    | none =>
      rw [List.foldl_cons]
      have hstep : loadEventLogStep acc none = acc := rfl
      rw [hstep]
      simpa using ih acc
    | some ev =>
      rw [List.foldl_cons]
      have hfm : (some ev :: rest).filterMap id = ev :: rest.filterMap id := by
        simp [List.filterMap_cons]
      rw [hfm, List.map_cons, List.foldl_cons]
      have hstep : (loadEventLogStep acc (some ev)).2.1 = max acc.2.1 ev.seq := by
        simp only [loadEventLogStep]
        split <;> omega
      rw [ih (loadEventLogStep acc (some ev)), hstep]

theorem loadEventLog_maxSeq (lines : List (Option Event)) :
    (loadEventLog lines).2.1 = ((lines.filterMap id).map Event.seq).foldl max 0 :=
  loadEventLog_fold_maxSeq lines ([], 0, [])

/-- C2: for every sequence of `Publish` calls on one bus, the assigned
sequence numbers are `nextSeq+1, nextSeq+2, …` — consecutive integers in
publish order (hence strictly increasing, dense, and never reused, as each
new number exceeds the counter that bounds everything already assigned) —
and the counter advances by exactly the number of publishes.  On a bus
constructed by reloading a durable log whose maximum stored sequence is
`M = foldl max 0` over the parsed lines, the counter resumes at `M` and the
next published event receives sequence `M + 1`, never resetting to
zero. -/
theorem C2_seq_dense_monotone_and_reload_continues
    (eb : EventBus) (now : Int) (evts : List Event)
    (lines : List (Option Event)) (e : Event) :
    (publishAll eb now evts).eventLog.map Event.seq =
      eb.eventLog.map Event.seq ++
        (List.range evts.length).map (fun i : ℕ => eb.nextSeq + 1 + (i : ℤ)) ∧
    (publishAll eb now evts).nextSeq = eb.nextSeq + evts.length ∧
    (NewEventBusWithLog lines).nextSeq =
      ((lines.filterMap id).map Event.seq).foldl max 0 ∧
    ((Publish (NewEventBusWithLog lines) now e).eventLog.map Event.seq).getLast? =
      some (((lines.filterMap id).map Event.seq).foldl max 0 + 1) := by
  refine ⟨(publishAll_seq eb now evts).2, (publishAll_seq eb now evts).1, ?_, ?_⟩
  · show (loadEventLog lines).2.1 = _
    exact loadEventLog_maxSeq lines
  · rw [Publish_eventLog_seq]
    have hebn : (NewEventBusWithLog lines).nextSeq = (loadEventLog lines).2.1 := rfl
    rw [hebn, loadEventLog_maxSeq]
    simp

/-- C1: for a stream `es` of published events carrying sequences `1..M` in
publish order (`SeqFrom 0 es`), a connection whose log snapshot at
`EventsSince` time held the first `N` events, whose subscription channel
started at event `s ≤ N` (the handler subscribes before reading the
snapshot, so the live channel covers everything from some point at or
before the snapshot end) and whose client supplied cursor `c ≤ N` delivers
exactly the events with sequence in `(c, M]`, each exactly once, in order:
the delivered list is the suffix of the stream after `c`, and for every
sequence value `v` the number of delivered events with that sequence is 1
when `c < v ≤ M` and 0 otherwise — replayed events with sequence in
`(c, N]` once each, live events with sequence in `(N, M]` once each, and
nothing is ever delivered twice. -/
theorem C1_replay_live_exactly_once {es : List Event} {N s c : ℕ}
    (h : SeqFrom 0 es) (hc : c ≤ N) (hs : s ≤ N) (hN : N ≤ es.length) :
    connectionDeliver (es.take N) (c : ℤ) (es.drop s) = es.drop c ∧
    ∀ v : ℤ,
      (connectionDeliver (es.take N) (c : ℤ) (es.drop s)).countP
          (fun e => e.seq = v) =
        if (c : ℤ) < v ∧ v ≤ (es.length : ℤ) then 1 else 0 := by
  have hd := connectionDeliver_stream h hc hs hN
  refine ⟨hd, fun v => ?_⟩
  rw [hd]
  have hsf : SeqFrom c (es.drop c) := by simpa using seqFrom_drop c h
  rw [countP_seq_eq_seqFrom hsf v, List.length_drop]
  have hcl : c ≤ es.length := le_trans hc hN
  rw [Nat.cast_sub hcl]
  have harith : (c : ℤ) + ((es.length : ℤ) - (c : ℤ)) = (es.length : ℤ) := by ring
  rw [harith]

/-- The spec's concrete reconnect scenario: six published events with
sequences 1..6. -/
def c1Stream : List Event :=
  [ { emptyEvent with type := "agentMessage", seq := 1, text := "one" }
  , { emptyEvent with type := "agentMessage", seq := 2, text := "two" }
  , { emptyEvent with type := "userMessage", seq := 3, text := "three" }
  , { emptyEvent with type := "agentMessage", seq := 4, text := "four" }
  , { emptyEvent with type := "agentMessage", seq := 5, text := "five" }
  , { emptyEvent with type := "agentMessage", seq := 6, text := "six" } ]

/-- Witness for C1 at the spec's scenario: log snapshot = events 1..5,
cursor 3, subscription live from event 4 onward (so events 4 and 5 are
visible on both the replay and the live channel), one further live event 6:
the connection delivers exactly events 4, 5, 6, and each of the sequence
values 4 and 6 exactly once, value 3 zero times. -/
theorem C1_replay_live_exactly_once_witness :
    connectionDeliver (c1Stream.take 5) ((3 : ℕ) : ℤ) (c1Stream.drop 3) =
        c1Stream.drop 3 ∧
    (connectionDeliver (c1Stream.take 5) ((3 : ℕ) : ℤ) (c1Stream.drop 3)).countP
        (fun e => e.seq = 4) = 1 ∧
    (connectionDeliver (c1Stream.take 5) ((3 : ℕ) : ℤ) (c1Stream.drop 3)).countP
        (fun e => e.seq = 6) = 1 ∧
    (connectionDeliver (c1Stream.take 5) ((3 : ℕ) : ℤ) (c1Stream.drop 3)).countP
        (fun e => e.seq = 3) = 0 := by
  have h := @C1_replay_live_exactly_once c1Stream 5 3 3
    (by decide) (by decide) (by decide) (by decide)
  refine ⟨h.1, ?_, ?_, ?_⟩
  · have h4 := h.2 4
    simpa using h4
  · have h6 := h.2 6
    simpa using h6
  · have h3 := h.2 3
    simpa using h3

/-- A log state reachable by `Publish` (sequence 1) followed by
`LogUserMessage` (log-only entry, sequence 0). -/
def c3Log : List Event :=
  [ { emptyEvent with type := "agentMessage", seq := 1, text := "hello", timestamp := 10 }
  , { emptyEvent with type := "userMessage", seq := 0, text := "hi", timestamp := 11 } ]

/-- Counterexample to C3 as stated: on a log holding a published event
(sequence 1) followed by a log-only `userMessage` entry (sequence 0),
`EventsSince 0` returns the whole log — including the sequence-0 entry,
which is *not* strictly greater than the cursor — so it is not the list of
stored events with sequence > cursor. -/
theorem C3_counterexample :
    eventsSinceList c3Log 0 = c3Log ∧
    c3Log.filter (fun e => e.seq > 0) ≠ c3Log ∧
    eventsSinceList c3Log 0 ≠ c3Log.filter (fun e => e.seq > 0) := by
  refine ⟨by decide, by decide, by decide⟩

theorem eventsSinceList_eq_filter (log : List Event) (cursor : ℤ) :
    List.Pairwise (fun a b => a.seq ≤ b.seq) log →
    eventsSinceList log cursor = log.filter (fun e => e.seq > cursor) := by
  induction log with
  | nil => intro _; rfl
  | cons e tl ih =>
    intro hp
    rw [List.pairwise_cons] at hp
    obtain ⟨hhead, htl⟩ := hp
    by_cases hgt : e.seq > cursor
    · rw [eventsSinceList, if_pos hgt, List.filter_cons, if_pos (by simpa using hgt)]
      congr 1
      symm
      apply List.filter_eq_self.mpr
      intro b hb
      simp only [decide_eq_true_eq]
      exact lt_of_lt_of_le hgt (hhead b hb)
    · rw [eventsSinceList, if_neg hgt, List.filter_cons, if_neg (by simpa using hgt)]
      exact ih htl

theorem eventsSinceList_nil_of_all_le (log : List Event) (cursor : ℤ) :
    (∀ e ∈ log, e.seq ≤ cursor) → eventsSinceList log cursor = [] := by
  induction log with
  | nil => intro _; rfl
  | cons e tl ih =>
    intro hall
    rw [eventsSinceList, if_neg (not_lt.mpr (hall e (List.mem_cons_self e tl)))]
    exact ih (fun b hb => hall b (List.mem_cons_of_mem e hb))

/-- C3 amended: `EventsSince(cursor)` returns the contiguous suffix of the
log that starts at the first stored event with sequence > cursor.  On a log
whose sequences are non-decreasing in storage order (in particular a log
produced by `Publish` alone, with no interleaved log-only sequence-0
entries) that suffix is exactly the stored events with sequence strictly
greater than the cursor, in original order; and on every log — interleaved
log-only entries included — the result is empty whenever every stored
sequence is ≤ cursor, i.e. whenever cursor ≥ the maximum stored
sequence. -/
theorem C3_eventsSince_amended (log : List Event) (cursor : ℤ) :
    (List.Pairwise (fun a b => a.seq ≤ b.seq) log →
      eventsSinceList log cursor = log.filter (fun e => e.seq > cursor)) ∧
    ((∀ e ∈ log, e.seq ≤ cursor) → eventsSinceList log cursor = []) :=
  ⟨eventsSinceList_eq_filter log cursor, eventsSinceList_nil_of_all_le log cursor⟩

/-- Witness for the amended C3 on concrete inputs: a publish-only log with
sequences 1,2,3 and cursor 1 yields exactly the events with sequence > 1;
the same log with cursor 3 (= its maximum sequence) yields `[]`. -/
theorem C3_eventsSince_amended_witness :
    eventsSinceList
        [ { emptyEvent with seq := 1 }, { emptyEvent with seq := 2 }
        , { emptyEvent with seq := 3 } ] 1 =
      List.filter (fun e => e.seq > 1)
        [ { emptyEvent with seq := 1 }, { emptyEvent with seq := 2 }
        , { emptyEvent with seq := 3 } ] ∧
    eventsSinceList
        [ { emptyEvent with seq := 1 }, { emptyEvent with seq := 2 }
        , { emptyEvent with seq := 3 } ] 3 = [] := by
  constructor
  · exact (C3_eventsSince_amended _ 1).1 (by decide)
  · exact (C3_eventsSince_amended _ 3).2 (by decide)

/-- The event actually stored and written by `Publish eb now event`:
timestamp defaulted, then the next sequence number assigned. -/
def publishedEvent (eb : EventBus) (now : Int) (event : Event) : Event :=
  { (if event.timestamp = 0 then { event with timestamp := now } else event) with
      seq := eb.nextSeq + 1 }

theorem Publish_eventLog (eb : EventBus) (now : Int) (event : Event) :
    (Publish eb now event).eventLog = eb.eventLog ++ [publishedEvent eb now event] := by
  simp only [Publish, writeToLog, publishedEvent]
  split <;> rfl

theorem Publish_hasLogFile (eb : EventBus) (now : Int) (event : Event) :
    (Publish eb now event).hasLogFile = eb.hasLogFile := by
  simp only [Publish, writeToLog]
  split <;> rfl

theorem Publish_diskFile (eb : EventBus) (now : Int) (event : Event)
    (hlog : eb.hasLogFile = true) :
    (Publish eb now event).diskFile = eb.diskFile ++ [some (publishedEvent eb now event)] := by
  simp only [Publish, writeToLog, publishedEvent, hlog]
  rfl

theorem Publish_lastQR (eb : EventBus) (now : Int) (event : Event) :
    (Publish eb now event).lastQuickReplies =
      if (publishedEvent eb now event).type = "userMessage" then []
      else if (publishedEvent eb now event).quickReplies ≠ [] then
        (publishedEvent eb now event).quickReplies
      else eb.lastQuickReplies := by
  simp only [Publish, writeToLog, publishedEvent]
  split <;> rfl

theorem loadEventLog_append_one (lines : List (Option Event)) (x : Option Event) :
    loadEventLog (lines ++ [x]) = loadEventLogStep (loadEventLog lines) x := by
  simp [loadEventLog, List.foldl_append]

/-- Reload faithfulness: replaying the bus's JSONL mirror reconstructs
exactly its in-memory event log, sequence counter and quick-reply state. -/
def ReloadInv (eb : EventBus) : Prop :=
  loadEventLog eb.diskFile = (eb.eventLog, eb.nextSeq, eb.lastQuickReplies)

theorem Publish_reloadInv {eb : EventBus} (now : Int) (event : Event)
    (hlog : eb.hasLogFile = true) (hinv : ReloadInv eb) :
    ReloadInv (Publish eb now event) := by
  unfold ReloadInv at hinv ⊢
  rw [Publish_diskFile eb now event hlog, loadEventLog_append_one, hinv,
      Publish_eventLog, Publish_nextSeq, Publish_lastQR]
  simp only [loadEventLogStep]
  have hseq : (publishedEvent eb now event).seq = eb.nextSeq + 1 := rfl
  rw [hseq, if_pos (by omega)]

theorem publishAll_reloadInv {eb : EventBus} (now : Int) (evts : List Event)
    (hlog : eb.hasLogFile = true) (hinv : ReloadInv eb) :
    ReloadInv (publishAll eb now evts) := by
  induction evts generalizing eb with
  | nil => exact hinv
  | cons e rest ih =>
    rw [publishAll]
    exact @ih (Publish eb now e)
      (by rw [Publish_hasLogFile]; exact hlog)
      (Publish_reloadInv now e hlog hinv)

/-- A publish carrying non-empty quick replies, then a `LogUserMessage`. -/
def c4Bus : EventBus :=
  LogUserMessage
    (Publish (NewEventBusWithLog [])
      5 { emptyEvent with type := "agentMessage", text := "pick", quickReplies := ["a", "b"] })
    6 "hi" []

/-- Counterexample to C4 as stated: after `Publish` (quick replies
`["a","b"]`) followed by `LogUserMessage`, the in-memory
`lastQuickReplies` is still `["a","b"]` (`LogUserMessage` never touches
it), but replaying the written log treats the logged `userMessage` line as
clearing, reconstructing `[]`. -/
theorem C4_counterexample :
    c4Bus.lastQuickReplies = ["a", "b"] ∧
    (loadEventLog c4Bus.diskFile).2.2 = [] ∧
    (loadEventLog c4Bus.diskFile).2.2 ≠ c4Bus.lastQuickReplies := by
  refine ⟨by decide, by decide, by decide⟩

/-- C4 amended: for every sequence of `Publish` calls (no interleaved
`LogUserMessage`) on a bus reloaded from a durable log, replaying the
mirror file with the publish-time derived-state rule reconstructs the
bus's in-memory state exactly — in particular the reconstructed
`lastQuickReplies` equals the in-memory value at the moment of the last
write (across `LogUserMessage` the two can differ, as the counterexample
shows: the logged `userMessage` line clears the reconstructed value while
the in-memory value is left untouched). -/
theorem C4_reload_reconstructs_lastQR_amended
    (lines : List (Option Event)) (now : Int) (evts : List Event) :
    (loadEventLog (publishAll (NewEventBusWithLog lines) now evts).diskFile).2.2 =
      (publishAll (NewEventBusWithLog lines) now evts).lastQuickReplies := by
  have hinv : ReloadInv (publishAll (NewEventBusWithLog lines) now evts) :=
    publishAll_reloadInv now evts rfl rfl
  rw [ReloadInv] at hinv
  rw [hinv]

/-- C5: the `WaitForSubscriber` loop arms a *fresh* 30-second timer (and a
fresh 100 ms poll timer) inside the select of every iteration; since the
100 ms channel always becomes ready first, the 30-second branch requires
`t + 30000 ≤ t + 100` and is unreachable.  So the code returns ok as soon
as a poll sees a subscriber and cancelled once the caller's cancellation
fires, but it can never return the 30-second timeout — under no fuel, start
time, subscriber schedule or cancellation time does the loop produce
`timedOut`, and with no subscriber and no cancellation it is still polling
after 400 iterations (≈ 40 s), contradicting the claim and the function's
own doc comment. -/
theorem C5_waitForSubscriber_timeout_unreachable :
    (∀ fuel t present cancelAt,
        waitForSubscriberLoop fuel t present cancelAt ≠ some WaitResult.timedOut) ∧
    (∀ t cancelAt fuel,
        waitForSubscriberLoop (fuel + 1) t (fun _ => true) cancelAt =
          some WaitResult.ok) ∧
    (∀ t fuel,
        waitForSubscriberLoop (fuel + 1) t (fun _ => false) (some 0) =
          some WaitResult.cancelled) ∧
    (∀ fuel t,
        waitForSubscriberLoop fuel t (fun _ => false) none = none) := by
  have hnever : ∀ fuel t present cancelAt,
      waitForSubscriberLoop fuel t present cancelAt ≠ some WaitResult.timedOut := by
    intro fuel
    induction fuel with
    | zero =>
      intro t p ca
      simp [waitForSubscriberLoop]
    | succ n ih =>
      intro t p ca
      rw [waitForSubscriberLoop]
      by_cases hp : p t
      · simp [hp]
      · rw [if_neg (by simpa using hp), min_eq_right (by omega : t + 100 ≤ t + 30000)]
        by_cases hca : cancelReady ca (t + 100) = true
        · simp [hca]
        · rw [if_neg (by simpa using hca), if_neg (by omega)]
          exact ih (t + 100) p ca
  have hpoll : ∀ fuel t,
      waitForSubscriberLoop fuel t (fun _ => false) none = none := by
    intro fuel
    induction fuel with
    | zero => intro t; rfl
    | succ n ih =>
      intro t
      rw [waitForSubscriberLoop]
      rw [if_neg (by simp), if_neg (by simp [cancelReady]), if_neg (by omega)]
      exact ih (t + 100)
  refine ⟨hnever, ?_, ?_, hpoll⟩
  · intro t ca fuel
    rw [waitForSubscriberLoop]
    simp
  · intro t fuel
    rw [waitForSubscriberLoop]
    rw [if_neg (by simp), if_pos (by simp [cancelReady])]

/-- A bus mid-prompt: quick replies `["Yes","No"]` outstanding and a pending
blocking ack. -/
def c6Bus : EventBus :=
  { NewEventBus with
      lastQuickReplies := ["Yes", "No"], pending := [("tok", 0)], chans := [none] }

/-- C6 evaluated at the failing input: connecting to a bus whose
`LastQuickReplies` is the non-empty `["Yes","No"]` produces a handshake
frame that carries the `connected` type marker and the pending-ack token,
but *no* protocol/version marker and *no* quick-reply set — the two fields
the wire-protocol schema (and the shipped client, which reads
`data.version` and `data.quickReplies` from this frame) expects; and no
handshake the server can build ever carries them. -/
theorem C6_handshake_missing_version_and_quickReplies :
    c6Bus.lastQuickReplies = ["Yes", "No"] ∧
    (connectHandshake c6Bus).type = "connected" ∧
    (connectHandshake c6Bus).pendingAckId = some "tok" ∧
    (connectHandshake c6Bus).version = none ∧
    (connectHandshake c6Bus).quickReplies = none ∧
    (∀ eb : EventBus,
      (connectHandshake eb).version = none ∧ (connectHandshake eb).quickReplies = none) :=
  ⟨by decide, by decide, by decide, by decide, by decide, fun _ => ⟨rfl, rfl⟩⟩

theorem lookup_append_none {α : Type} (l1 l2 : List (String × α)) (k : String)
    (h : l1.lookup k = none) : (l1 ++ l2).lookup k = l2.lookup k := by
  induction l1 with
  | nil => rfl
  | cons a tl ih =>
    rw [List.cons_append]
    by_cases hk : k = a.1
    · exfalso
      rw [show a = (a.1, a.2) from rfl, List.lookup, hk] at h
      simp at h
    · rw [show a = (a.1, a.2) from rfl, List.lookup] at h ⊢
      have hb : (k == a.1) = false := beq_eq_false_iff_ne.mpr hk
      rw [hb] at h ⊢
      exact ih h

theorem lookup_filter_ne {α : Type} (l : List (String × α)) (k : String) :
    (l.filter (fun kv => kv.1 ≠ k)).lookup k = none := by
  induction l with
  | nil => rfl
  | cons a tl ih =>
    rw [List.filter_cons]
    by_cases h : a.1 = k
    · rw [if_neg (by simp [h])]
      exact ih
    · rw [if_pos (by simp [h]), show a = (a.1, a.2) from rfl, List.lookup,
          beq_eq_false_iff_ne.mpr (Ne.symm h)]
      exact ih

/-- C7: for a tool-invocation prompt `p` whose id is not yet pending.
Scenario (a), completion processed before the 1500 ms debounce timer
fires: registering `p` publishes nothing, the matching completion stops the
timer, removes the entry and publishes exactly one `PermissionResolved`
event, and no `PermissionPrompt` is ever published for that id — even the
timer callback itself, were it still to run, finds the id gone and
publishes nothing.  Scenario (b), timer fires first: exactly one
`PermissionPrompt` event is published, the entry stays registered
(state unchanged), and a late completion still publishes exactly one
`PermissionResolved` event. -/
theorem C7_watcher_debounce (s : WatcherState) (p : PermissionPrompt)
    (hfresh : s.pending.lookup p.toolUseId = none) :
    (processLine s [p] []).2 = [] ∧
    (processLine (processLine s [p] []).1 [] [p.toolUseId]).2 =
      [permissionResolvedEvent p.toolUseId] ∧
    (watcherTimerFire (processLine (processLine s [p] []).1 [] [p.toolUseId]).1 p).2 =
      [] ∧
    (watcherTimerFire (processLine s [p] []).1 p).2 = [permissionPromptEvent p] ∧
    (watcherTimerFire (processLine s [p] []).1 p).1 = (processLine s [p] []).1 ∧
    (processLine (watcherTimerFire (processLine s [p] []).1 p).1 [] [p.toolUseId]).2 =
      [permissionResolvedEvent p.toolUseId] := by
  have h1 : processLine s [p] [] = (⟨s.pending ++ [(p.toolUseId, p)]⟩, []) := by
    simp [processLine, mapSet, hfresh]
  have hlk : (s.pending ++ [(p.toolUseId, p)]).lookup p.toolUseId = some p := by
    rw [lookup_append_none _ _ _ hfresh, List.lookup]
    simp
  have h2 : processLine (⟨s.pending ++ [(p.toolUseId, p)]⟩ : WatcherState) []
        [p.toolUseId] =
      (⟨(s.pending ++ [(p.toolUseId, p)]).filter (fun kv => kv.1 ≠ p.toolUseId)⟩,
       [permissionResolvedEvent p.toolUseId]) := by
    simp [processLine, hlk]
  have h3 : ((s.pending ++ [(p.toolUseId, p)]).filter
      (fun kv => kv.1 ≠ p.toolUseId)).lookup p.toolUseId = none :=
    lookup_filter_ne _ _
  have hfire1 : watcherTimerFire (⟨s.pending ++ [(p.toolUseId, p)]⟩ : WatcherState) p =
      ((⟨s.pending ++ [(p.toolUseId, p)]⟩ : WatcherState), [permissionPromptEvent p]) := by
    simp only [watcherTimerFire]
    rw [hlk]
  have hfire2 : watcherTimerFire
      (⟨(s.pending ++ [(p.toolUseId, p)]).filter (fun kv => kv.1 ≠ p.toolUseId)⟩ :
        WatcherState) p =
      ((⟨(s.pending ++ [(p.toolUseId, p)]).filter (fun kv => kv.1 ≠ p.toolUseId)⟩ :
        WatcherState), []) := by
    simp only [watcherTimerFire]
    rw [h3]
  exact ⟨by rw [h1], by rw [h1, h2], by rw [h1, h2, hfire2], by rw [h1, hfire1],
    by rw [h1, hfire1], by rw [h1, hfire1, h2]⟩

/-- Witness for C7 on a concrete fresh watcher and prompt. -/
def c7Prompt : PermissionPrompt :=
  { toolUseId := "toolu_1", toolName := "Bash", title := "list files", detail := "ls" }

theorem C7_watcher_debounce_witness :
    (processLine ⟨[]⟩ [c7Prompt] []).2 = [] ∧
    (processLine (processLine ⟨[]⟩ [c7Prompt] []).1 [] [c7Prompt.toolUseId]).2 =
      [permissionResolvedEvent c7Prompt.toolUseId] ∧
    (watcherTimerFire
        (processLine (processLine ⟨[]⟩ [c7Prompt] []).1 [] [c7Prompt.toolUseId]).1
        c7Prompt).2 = [] ∧
    (watcherTimerFire (processLine ⟨[]⟩ [c7Prompt] []).1 c7Prompt).2 =
      [permissionPromptEvent c7Prompt] ∧
    (watcherTimerFire (processLine ⟨[]⟩ [c7Prompt] []).1 c7Prompt).1 =
      (processLine ⟨[]⟩ [c7Prompt] []).1 ∧
    (processLine (watcherTimerFire (processLine ⟨[]⟩ [c7Prompt] []).1 c7Prompt).1 []
        [c7Prompt.toolUseId]).2 =
      [permissionResolvedEvent c7Prompt.toolUseId] :=
  C7_watcher_debounce ⟨[]⟩ c7Prompt (by decide)

theorem drainLoop_eq (l : List UserMessage) : drainLoop l = l := by
  induction l with
  | nil => rfl
  | cons m rest ih => rw [drainLoop, ih]

/-- C8: a `PushMessage` against a queue already holding its full capacity of
256 entries removes exactly the oldest entry and appends the new one — the
remaining 255 entries keep their FIFO order and the queue stays at 256 —
and the (total, never-blocking) push is followed by `DrainMessages`
returning all queued entries in arrival order and leaving the queue
empty. -/
theorem C8_push_full_drops_oldest (eb : EventBus) (text : String)
    (files : List FileRef) (hfull : eb.msgQueue.length = 256) :
    (PushMessage eb text files).msgQueue =
      eb.msgQueue.drop 1 ++ [{ text := text, files := files }] ∧
    (PushMessage eb text files).msgQueue.length = 256 ∧
    (DrainMessages (PushMessage eb text files)).1 =
      eb.msgQueue.drop 1 ++ [{ text := text, files := files }] ∧
    (DrainMessages (PushMessage eb text files)).2.msgQueue = [] := by
  have hpush : (PushMessage eb text files).msgQueue =
      eb.msgQueue.drop 1 ++ [{ text := text, files := files }] := by
    simp only [PushMessage]
    rw [if_neg (by omega)]
  refine ⟨hpush, ?_, ?_, rfl⟩
  · rw [hpush]
    simp [List.length_drop, hfull]
  · show drainLoop (PushMessage eb text files).msgQueue = _
    rw [drainLoop_eq, hpush]

/-- A full 256-entry queue. -/
def c8Bus : EventBus :=
  { NewEventBus with msgQueue := List.replicate 256 { text := "old", files := [] } }

/-- Witness for C8 at a concrete full queue. -/
theorem C8_push_full_drops_oldest_witness :
    (PushMessage c8Bus "new" []).msgQueue =
      c8Bus.msgQueue.drop 1 ++ [{ text := "new", files := [] }] ∧
    (PushMessage c8Bus "new" []).msgQueue.length = 256 ∧
    (DrainMessages (PushMessage c8Bus "new" [])).1 =
      c8Bus.msgQueue.drop 1 ++ [{ text := "new", files := [] }] ∧
    (DrainMessages (PushMessage c8Bus "new" [])).2.msgQueue = [] :=
  C8_push_full_drops_oldest c8Bus "new" []
    (by show (List.replicate 256 ({ text := "old", files := [] } : UserMessage)).length = 256
        rw [List.length_replicate])

/-- C9: `ResolveAck` with a token that is not in the pending registry
returns false and leaves the whole bus state — registry and every pending
channel buffer — unchanged; consequently, after a first `ResolveAck` with
token `id` succeeded (the entry is removed), a second `ResolveAck` with the
same token returns false and has no side effect. -/
theorem C9_resolveAck_unknown_and_double (eb : EventBus) (id r r2 : String)
    (ci : Nat) :
    (eb.pending.lookup id = none → ResolveAck eb id r = (eb, false)) ∧
    (eb.pending.lookup id = some ci →
      ResolveAck (ResolveAck eb id r).1 id r2 = ((ResolveAck eb id r).1, false)) := by
  constructor
  · intro h
    simp [ResolveAck, h]
  · intro h
    have h1 : (ResolveAck eb id r).1.pending =
        eb.pending.filter (fun kv => kv.1 ≠ id) := by
      simp [ResolveAck, h]
    have h2 : (ResolveAck eb id r).1.pending.lookup id = none := by
      rw [h1]
      exact lookup_filter_ne _ _
    set eb1 := (ResolveAck eb id r).1 with heb1
    simp only [ResolveAck, h2]

/-- A bus with one pending ack, token "tok", channel 0 empty. -/
def c9Bus : EventBus :=
  { NewEventBus with pending := [("tok", 0)], chans := [none] }

/-- Witness for C9: an unknown token on `c9Bus` is a no-op returning false,
and resolving "tok" twice returns false the second time with no side
effect. -/
theorem C9_resolveAck_witness :
    ResolveAck c9Bus "other" "ack" = (c9Bus, false) ∧
    ResolveAck (ResolveAck c9Bus "tok" "ack").1 "tok" "ack:again" =
      ((ResolveAck c9Bus "tok" "ack").1, false) :=
  ⟨(C9_resolveAck_unknown_and_double c9Bus "other" "ack" "x" 0).1 (by decide),
   (C9_resolveAck_unknown_and_double c9Bus "tok" "ack" "ack:again" 0).2 (by decide)⟩

/-- C10: an inbound `message` frame whose text is empty and whose file list
is empty falls outside the handler's `m.Text != "" || len(m.Files) > 0`
guard, so the connection handler leaves the entire bus state unchanged — no
queue entry, no published `userMessage` event (event log, sequence counter
and `lastQuickReplies` untouched) — and no `messageQueued` notice is queued
back to the sender. -/
theorem C10_empty_message_frame_no_effect (eb : EventBus) (now : Int) :
    handleMessageFrame eb now "" [] = (eb, false) := by
  simp [handleMessageFrame]
